import Mathlib

/-!
Shallow embedding of the bike_mapper frontend selection, hover, and
route-request logic (src/unnamed/part_001, the main application script).
Segment identifiers (osmids) are modelled as naturals; geographic
coordinates are opaque payloads that the logic only stores and forwards,
modelled as pairs of integers.
-/

/-- Geographic coordinates: an opaque payload (lng, lat) that the selection
logic stores but never inspects. -/
abbrev Coords := Int × Int

/-- An element of the global `features` array: the id pushed by the click
handler or by selectPathGroup, plus its optional coordinates (null when
added via group expansion). -/
structure SelFeature where
  id : Nat
  coordinates : Option Coords
deriving DecidableEq, Repr

/-- Pointwise update of a per-feature boolean flag store; models
map.setFeatureState({source, id}, {flag: value}). -/
def setFlag (flags : Nat → Bool) (i : Nat) (b : Bool) : Nat → Bool :=
  fun j => if j = i then b else flags j

/-- A member object of a path group; id none models an absent (falsy) id
field, which the source skips. -/
structure PathMember where
  id : Option Nat
deriving DecidableEq, Repr

/-- One entry of a path group array: either a flat member object or a
one-level nested array of members (extractIdsFromPath handles both). -/
inductive PathEntry where
  | member (m : PathMember)
  | nested (ms : List PathMember)
deriving DecidableEq, Repr

/-- The grouped_paths.json catalog: hierarchy maps a hierarchy name to an
ordered list of child group names; paths maps a group name to its entries.
JS object key lookup is modelled as association-list lookup. -/
structure GroupedPaths where
  hierarchy : List (String × List String)
  paths : List (String × List PathEntry)
deriving DecidableEq, Repr

/-- Segment ids contributed by one path-group entry: a nested entry
contributes each inner member id that is present; a flat member entry
contributes its id when present (extractIdsFromPath, inner forEach). -/
def entryIds : PathEntry → List Nat
  | .nested ms => ms.filterMap (·.id)
  | .member m => m.id.toList

/-- extractIdsFromPath: looks up pathKey in groupedPaths.paths; unknown
keys yield the empty list; otherwise the entries are flattened in order. -/
def extractIdsFromPath (gp : GroupedPaths) (pathKey : String) : List Nat :=
  match gp.paths.lookup pathKey with
  | none => []
  | some pathGroup => pathGroup.flatMap entryIds

/-- JS String.prototype.startsWith, stated on the character lists so that
it reduces in the kernel. -/
def jsStartsWith (s pre : String) : Bool := pre.data.isPrefixOf s.data

/-- Dropping the first n characters of a string; models the JS
replace of a tag prefix with the empty string (the tag is a prefix, so
first-occurrence replace equals dropping its length). -/
def jsDrop (s : String) (n : Nat) : String := ⟨s.data.drop n⟩

/-- The id list computed by selectPathGroup before the add-loop: a
"hierarchy:" key concatenates the ids of every child group in order, a
"path:" key takes that one group's ids, anything else yields nothing. -/
def resolveIds (gp : GroupedPaths) (key : String) : List Nat :=
  if jsStartsWith key "hierarchy:" then
    match gp.hierarchy.lookup (jsDrop key 10) with
    | some children => children.flatMap (extractIdsFromPath gp)
    | none => []
  else if jsStartsWith key "path:" then
    extractIdsFromPath gp (jsDrop key 5)
  else []

/-- A tiny catalog in which hierarchy h has two child groups sharing the
member id 1; used to evaluate the resolver on a concrete input. -/
def sharedMemberCatalog : GroupedPaths :=
  { hierarchy := [("h", ["g1", "g2"])]
  , paths := [("g1", [.member ⟨some 1⟩]), ("g2", [.member ⟨some 1⟩])] }

lemma resolveIds_sharedMemberCatalog :
    resolveIds sharedMemberCatalog "hierarchy:h" = [1, 1] := by decide

/-- State of the selection engine: the global features array and the map
surface's per-segment visual "selected" flag store. -/
structure SelState where
  features : List SelFeature
  selected : Nat → Bool

/-- The id projection of the features array. -/
def idsOf (l : List SelFeature) : List Nat := l.map (·.id)

/-- True when some element of the features array carries the given id;
models features.find / features.findIndex returning a hit. -/
def hasId (l : List SelFeature) (i : Nat) : Bool :=
  (l.find? (fun f => f.id == i)).isSome

/-- Removal of the element at the index found by findIndex, i.e. the first
element whose id matches; models features.splice(existingFeatureIndex, 1). -/
def removeFirstById : List SelFeature → Nat → List SelFeature
  | [], _ => []
  | f :: t, h => if f.id == h then t else f :: removeFirstById t h

/-- The map click handler: with a feature hovered, toggles it — present
ids are spliced out and their selected flag cleared; absent ids are pushed
with the click coordinates and their selected flag set. Without a hovered
feature the click does nothing. -/
def clickStep (s : SelState) (hovered : Option Nat) (coords : Coords) : SelState :=
  match hovered with
  | none => s
  | some h =>
    if hasId s.features h then
      { features := removeFirstById s.features h
      , selected := setFlag s.selected h false }
    else
      { features := s.features ++ [⟨h, some coords⟩]
      , selected := setFlag s.selected h true }

/-- One iteration of the selectPathGroup add-loop: ids already found in
the features array are left untouched; new ids are pushed with null
coordinates and their selected flag set. -/
def addIfAbsent (s : SelState) (i : Nat) : SelState :=
  if hasId s.features i then s
  else
    { features := s.features ++ [⟨i, none⟩]
    , selected := setFlag s.selected i true }

/-- The selectPathGroup add-loop over a resolved id list. -/
def addMany (ids : List Nat) (s : SelState) : SelState :=
  ids.foldl addIfAbsent s

/-- selectPathGroup: a falsy (empty) group key returns immediately;
otherwise the resolved ids are added to the selection. -/
def selectPathGroupState (gp : GroupedPaths) (key : String) (s : SelState) : SelState :=
  if key = "" then s else addMany (resolveIds gp key) s

/-- deselectAllRoutes: clears the selected flag of every member in order,
then empties the features array. -/
def deselectAllState (s : SelState) : SelState :=
  { features := []
  , selected := s.features.foldl (fun sel f => setFlag sel f.id false) s.selected }

/-- The selection operations the UI can issue: a map click (with whatever
segment the hover side-channel currently reports, and the click
coordinates), a dropdown group selection, and the deselect-all button. -/
inductive SelOp where
  | click (hovered : Option Nat) (coords : Coords)
  | group (key : String)
  | clearAll
deriving DecidableEq, Repr

/-- Dispatch of one selection operation, against the (immutable) loaded
catalog. -/
def selStep (gp : GroupedPaths) (s : SelState) : SelOp → SelState
  | .click hov coords => clickStep s hov coords
  | .group key => selectPathGroupState gp key s
  | .clearAll => deselectAllState s

/-- The initial selection state: empty features array, no selected flag
set. -/
def emptySel : SelState := { features := [], selected := fun _ => false }

/-- The selection state after a sequence of operations from startup. -/
def runSel (gp : GroupedPaths) (ops : List SelOp) : SelState :=
  ops.foldl (selStep gp) emptySel

/-- The run-time invariant of the selection engine: membership in the
features array matches the visual selected flag, and ids are unique. -/
def SelInv (s : SelState) : Prop :=
  (∀ i, i ∈ idsOf s.features ↔ s.selected i = true) ∧ (idsOf s.features).Nodup

@[simp] lemma idsOf_nil : idsOf [] = [] := rfl

@[simp] lemma idsOf_cons (f : SelFeature) (t : List SelFeature) :
    idsOf (f :: t) = f.id :: idsOf t := rfl

lemma idsOf_append (l₁ l₂ : List SelFeature) :
    idsOf (l₁ ++ l₂) = idsOf l₁ ++ idsOf l₂ := by
  simp [idsOf]

lemma hasId_iff (l : List SelFeature) (i : Nat) :
    hasId l i = true ↔ i ∈ idsOf l := by
  induction l with
  | nil => simp [hasId]
  | cons f t ih =>
    cases hfi : (f.id == i) with
    | true =>
      have heq : f.id = i := by simpa using hfi
      have hstep : hasId (f :: t) i = true := by simp [hasId, List.find?, hfi]
      rw [hstep, idsOf_cons, heq]
      simp
    | false =>
      have hne : f.id ≠ i := by simpa using hfi
      have hstep : hasId (f :: t) i = hasId t i := by simp [hasId, List.find?, hfi]
      rw [hstep, ih, idsOf_cons, List.mem_cons]
      constructor
      · exact fun h => Or.inr h
      · rintro (h | h)
        · exact absurd h.symm hne
        · exact h

lemma mem_idsOf_removeFirstById (l : List SelFeature) (h i : Nat)
    (hnd : (idsOf l).Nodup) :
    i ∈ idsOf (removeFirstById l h) ↔ i ≠ h ∧ i ∈ idsOf l := by
  induction l with
  | nil => simp [removeFirstById]
  | cons f t ih =>
    rw [idsOf_cons, List.nodup_cons] at hnd
    obtain ⟨hf, hnt⟩ := hnd
    cases hfh : (f.id == h) with
    | true =>
      have heq : f.id = h := by simpa using hfh
      have hstep : removeFirstById (f :: t) h = t := by simp [removeFirstById, hfh]
      rw [hstep, idsOf_cons, List.mem_cons]
      constructor
      · intro hit
        refine ⟨fun hih => ?_, Or.inr hit⟩
        exact hf (by rw [heq, ← hih]; exact hit)
      · rintro ⟨hih, hor⟩
        cases hor with
        | inl h1 => exact absurd (h1.trans heq) hih
        | inr h2 => exact h2
    | false =>
      have hne : f.id ≠ h := by simpa using hfh
      have hstep : removeFirstById (f :: t) h = f :: removeFirstById t h := by
        simp [removeFirstById, hfh]
      rw [hstep, idsOf_cons, idsOf_cons, List.mem_cons, List.mem_cons, ih hnt]
      constructor
      · rintro (h1 | ⟨h2, h3⟩)
        · exact ⟨fun hih => hne (h1.symm.trans hih), Or.inl h1⟩
        · exact ⟨h2, Or.inr h3⟩
      · rintro ⟨hih, h1 | h2⟩
        · exact Or.inl h1
        · exact Or.inr ⟨hih, h2⟩

lemma nodup_idsOf_removeFirstById (l : List SelFeature) (h : Nat)
    (hnd : (idsOf l).Nodup) :
    (idsOf (removeFirstById l h)).Nodup := by
  induction l with
  | nil => simp [removeFirstById]
  | cons f t ih =>
    rw [idsOf_cons, List.nodup_cons] at hnd
    obtain ⟨hf, hnt⟩ := hnd
    cases hfh : (f.id == h) with
    | true =>
      have hstep : removeFirstById (f :: t) h = t := by simp [removeFirstById, hfh]
      rw [hstep]
      exact hnt
    | false =>
      have hstep : removeFirstById (f :: t) h = f :: removeFirstById t h := by
        simp [removeFirstById, hfh]
      rw [hstep, idsOf_cons, List.nodup_cons]
      refine ⟨?_, ih hnt⟩
      intro hmem
      exact hf ((mem_idsOf_removeFirstById t h f.id hnt).mp hmem).2

lemma setFlag_eq (flags : Nat → Bool) (i : Nat) (b : Bool) (j : Nat) :
    setFlag flags i b j = if j = i then b else flags j := rfl

lemma nodup_idsOf_push (l : List SelFeature) (f : SelFeature)
    (hnd : (idsOf l).Nodup) (hnotmem : f.id ∉ idsOf l) :
    (idsOf (l ++ [f])).Nodup := by
  rw [idsOf_append, idsOf_cons, idsOf_nil]
  rw [List.nodup_append]
  refine ⟨hnd, List.nodup_singleton _, ?_⟩
  intro x hx hx1
  rw [List.mem_singleton] at hx1
  exact hnotmem (hx1 ▸ hx)

lemma selInv_clickStep (s : SelState) (hov : Option Nat) (c : Coords)
    (hs : SelInv s) : SelInv (clickStep s hov c) := by
  obtain ⟨hmem, hnd⟩ := hs
  cases hov with
  | none => exact ⟨hmem, hnd⟩
  | some h =>
    cases hh : hasId s.features h with
    | true =>
      have hres : clickStep s (some h) c =
          { features := removeFirstById s.features h
          , selected := setFlag s.selected h false } := by
        simp [clickStep, hh]
      rw [hres]
      refine ⟨?_, nodup_idsOf_removeFirstById _ _ hnd⟩
      intro i
      show i ∈ idsOf (removeFirstById s.features h) ↔
        setFlag s.selected h false i = true
      rw [mem_idsOf_removeFirstById _ _ _ hnd, setFlag_eq]
      by_cases hih : i = h
      · simp [hih]
      · simp [hih, hmem i]
    | false =>
      have hnotmem : h ∉ idsOf s.features := fun hm => by
        simp [(hasId_iff s.features h).mpr hm] at hh
      have hres : clickStep s (some h) c =
          { features := s.features ++ [⟨h, some c⟩]
          , selected := setFlag s.selected h true } := by
        simp [clickStep, hh]
      rw [hres]
      constructor
      · intro i
        show i ∈ idsOf (s.features ++ [⟨h, some c⟩]) ↔
          setFlag s.selected h true i = true
        rw [idsOf_append, idsOf_cons, idsOf_nil, List.mem_append,
          List.mem_singleton, setFlag_eq]
        by_cases hih : i = h
        · simp [hih]
        · simp [hih, hmem i]
      · exact nodup_idsOf_push _ _ hnd hnotmem

lemma selInv_addIfAbsent (s : SelState) (i : Nat) (hs : SelInv s) :
    SelInv (addIfAbsent s i) := by
  obtain ⟨hmem, hnd⟩ := hs
  cases hh : hasId s.features i with
  | true =>
    have hres : addIfAbsent s i = s := by simp [addIfAbsent, hh]
    rw [hres]
    exact ⟨hmem, hnd⟩
  | false =>
    have hnotmem : i ∉ idsOf s.features := fun hm => by
      simp [(hasId_iff s.features i).mpr hm] at hh
    have hres : addIfAbsent s i =
        { features := s.features ++ [⟨i, none⟩]
        , selected := setFlag s.selected i true } := by
      simp [addIfAbsent, hh]
    rw [hres]
    constructor
    · intro j
      show j ∈ idsOf (s.features ++ [⟨i, none⟩]) ↔
        setFlag s.selected i true j = true
      rw [idsOf_append, idsOf_cons, idsOf_nil, List.mem_append,
        List.mem_singleton, setFlag_eq]
      by_cases hji : j = i
      · simp [hji]
      · simp [hji, hmem j]
    · exact nodup_idsOf_push _ _ hnd hnotmem

lemma selInv_addMany (ids : List Nat) (s : SelState) (hs : SelInv s) :
    SelInv (addMany ids s) := by
  induction ids generalizing s with
  | nil => exact hs
  | cons i t ih => exact ih _ (selInv_addIfAbsent s i hs)

lemma selInv_selectPathGroup (gp : GroupedPaths) (key : String) (s : SelState)
    (hs : SelInv s) : SelInv (selectPathGroupState gp key s) := by
  unfold selectPathGroupState
  by_cases hk : key = ""
  · simpa [hk] using hs
  · simpa [hk] using selInv_addMany (resolveIds gp key) s hs

lemma foldl_clearFlags (l : List SelFeature) (sel : Nat → Bool) (i : Nat) :
    (l.foldl (fun sel f => setFlag sel f.id false) sel) i =
      if i ∈ idsOf l then false else sel i := by
  induction l generalizing sel with
  | nil => simp
  | cons f t ih =>
    rw [List.foldl_cons, ih, idsOf_cons]
    by_cases h1 : i ∈ idsOf t
    · simp [h1]
    · by_cases h2 : i = f.id
      · simp [h1, h2, setFlag_eq]
      · simp [h1, h2, setFlag_eq]

lemma selInv_deselectAll (s : SelState) (hs : SelInv s) :
    SelInv (deselectAllState s) := by
  obtain ⟨hmem, hnd⟩ := hs
  constructor
  · intro i
    show i ∈ idsOf [] ↔
      (s.features.foldl (fun sel f => setFlag sel f.id false) s.selected) i = true
    rw [idsOf_nil, foldl_clearFlags]
    by_cases h : i ∈ idsOf s.features
    · simp [h]
    · simp only [h, if_neg, not_false_iff, List.not_mem_nil, false_iff,
        Bool.not_eq_true]
      cases hb : s.selected i
      · rfl
      · exact absurd ((hmem i).mpr hb) h
  · show (idsOf ([] : List SelFeature)).Nodup
    simp

lemma selInv_selStep (gp : GroupedPaths) (s : SelState) (op : SelOp)
    (hs : SelInv s) : SelInv (selStep gp s op) := by
  cases op with
  | click hov coords => exact selInv_clickStep s hov coords hs
  | group key => exact selInv_selectPathGroup gp key s hs
  | clearAll => exact selInv_deselectAll s hs

lemma selInv_emptySel : SelInv emptySel := by
  constructor
  · intro i
    simp [emptySel]
  · simp [emptySel]

lemma selInv_runSel (gp : GroupedPaths) (ops : List SelOp) :
    SelInv (runSel gp ops) := by
  suffices h : ∀ (l : List SelOp) (s : SelState), SelInv s →
      SelInv (l.foldl (selStep gp) s) from h ops emptySel selInv_emptySel
  intro l
  induction l with
  | nil => exact fun s hs => hs
  | cons op t ih => exact fun s hs => ih _ (selInv_selStep gp s op hs)

/-- C1: after every sequence of selection operations (click toggles, group
selections, deselect-all), a segment id is in the features array if and
only if its visual selected flag on the map surface is true. Quantifying
over all operation sequences covers the state after each operation of any
longer sequence. -/
theorem C1_selection_matches_visual_flags (gp : GroupedPaths) (ops : List SelOp)
    (i : Nat) :
    i ∈ idsOf (runSel gp ops).features ↔ (runSel gp ops).selected i = true :=
  (selInv_runSel gp ops).1 i

/-- C10: after every sequence of selection operations, each id occurs at
most once in the features array, so the single splice performed by the
click handler removes every occurrence of the id it removes. -/
theorem C10_selection_ids_nodup (gp : GroupedPaths) (ops : List SelOp) :
    (idsOf (runSel gp ops).features).Nodup ∧
      ∀ h, h ∉ idsOf (removeFirstById (runSel gp ops).features h) := by
  have hinv := selInv_runSel gp ops
  refine ⟨hinv.2, ?_⟩
  intro h hm
  exact ((mem_idsOf_removeFirstById _ h h hinv.2).mp hm).1 rfl

/-- First-seen-order deduplication of an id list, written as the same
left fold that the selectPathGroup add-loop performs on membership. -/
def dedupFirst (l : List Nat) : List Nat :=
  l.foldl (fun acc i => if i ∈ acc then acc else acc ++ [i]) []

lemma idsOf_addIfAbsent (s : SelState) (i : Nat) :
    idsOf (addIfAbsent s i).features =
      if i ∈ idsOf s.features then idsOf s.features
      else idsOf s.features ++ [i] := by
  cases hh : hasId s.features i with
  | true =>
    have hm : i ∈ idsOf s.features := (hasId_iff _ _).mp hh
    simp [addIfAbsent, hh, hm]
  | false =>
    have hm : i ∉ idsOf s.features := fun hm => by
      simp [(hasId_iff _ _).mpr hm] at hh
    rw [if_neg hm]
    have hres : addIfAbsent s i =
        { features := s.features ++ [⟨i, none⟩]
        , selected := setFlag s.selected i true } := by
      simp [addIfAbsent, hh]
    rw [hres]
    show idsOf (s.features ++ [⟨i, none⟩]) = idsOf s.features ++ [i]
    rw [idsOf_append, idsOf_cons, idsOf_nil]

lemma idsOf_addMany (ids : List Nat) (s : SelState) :
    idsOf (addMany ids s).features =
      ids.foldl (fun acc i => if i ∈ acc then acc else acc ++ [i])
        (idsOf s.features) := by
  induction ids generalizing s with
  | nil => rfl
  | cons i t ih =>
    show idsOf (addMany t (addIfAbsent s i)).features = _
    rw [ih, List.foldl_cons, idsOf_addIfAbsent]

lemma nodup_dedup_foldl (l : List Nat) :
    ∀ acc : List Nat, acc.Nodup →
      (l.foldl (fun acc i => if i ∈ acc then acc else acc ++ [i]) acc).Nodup := by
  induction l with
  | nil => exact fun acc h => h
  | cons i t ih =>
    intro acc hacc
    rw [List.foldl_cons]
    by_cases hm : i ∈ acc
    · rw [if_pos hm]
      exact ih acc hacc
    · rw [if_neg hm]
      refine ih _ ?_
      rw [List.nodup_append]
      refine ⟨hacc, List.nodup_singleton _, ?_⟩
      intro x hx hx1
      rw [List.mem_singleton] at hx1
      exact hm (hx1 ▸ hx)

/-- C3 counterexample: against a catalog whose hierarchy h has two child
groups sharing member id 1, the resolver's output list is [1, 1], which
contains a duplicate — refuting the claim that the output list never
does. -/
theorem C3_resolver_output_duplicates_counterexample :
    ¬ (resolveIds sharedMemberCatalog "hierarchy:h").Nodup := by decide

/-- C3 amended: resolution is deterministic (resolveIds is a pure function
of the catalog and the reference), and although the resolver's raw
concatenated list may repeat ids shared between a hierarchy's child
groups, the duplicates are collapsed at the selection boundary: applying
selectPathGroup to an empty selection yields exactly the first-seen-order
deduplication of the resolver output, which has no duplicates. -/
theorem C3_resolution_dedup_at_selection (gp : GroupedPaths) (key : String) :
    idsOf (selectPathGroupState gp key emptySel).features =
        dedupFirst (resolveIds gp key) ∧
      (dedupFirst (resolveIds gp key)).Nodup := by
  constructor
  · by_cases hk : key = ""
    · have h1 : jsStartsWith "" "hierarchy:" = false := by decide
      have h2 : jsStartsWith "" "path:" = false := by decide
      subst hk
      simp [selectPathGroupState, resolveIds, h1, h2, dedupFirst, emptySel, idsOf]
    · rw [selectPathGroupState, if_neg hk, idsOf_addMany]
      rfl
  · exact nodup_dedup_foldl _ _ List.nodup_nil

lemma addIfAbsent_of_mem (s : SelState) (i : Nat)
    (h : i ∈ idsOf s.features) : addIfAbsent s i = s := by
  have hh : hasId s.features i = true := (hasId_iff _ _).mpr h
  simp [addIfAbsent, hh]

lemma mem_idsOf_addIfAbsent_self (s : SelState) (i : Nat) :
    i ∈ idsOf (addIfAbsent s i).features := by
  rw [idsOf_addIfAbsent]
  by_cases hm : i ∈ idsOf s.features
  · rwa [if_pos hm]
  · rw [if_neg hm, List.mem_append, List.mem_singleton]
    exact Or.inr rfl

lemma mem_idsOf_addIfAbsent_mono (s : SelState) (i j : Nat)
    (h : j ∈ idsOf s.features) : j ∈ idsOf (addIfAbsent s i).features := by
  rw [idsOf_addIfAbsent]
  by_cases hm : i ∈ idsOf s.features
  · rwa [if_pos hm]
  · rw [if_neg hm, List.mem_append]
    exact Or.inl h

lemma mem_idsOf_addMany_mono (ids : List Nat) (s : SelState) (j : Nat)
    (h : j ∈ idsOf s.features) : j ∈ idsOf (addMany ids s).features := by
  induction ids generalizing s with
  | nil => exact h
  | cons i t ih => exact ih _ (mem_idsOf_addIfAbsent_mono s i j h)

lemma mem_idsOf_addMany (ids : List Nat) (s : SelState) :
    ∀ j ∈ ids, j ∈ idsOf (addMany ids s).features := by
  induction ids generalizing s with
  | nil => intro j hj; cases hj
  | cons i t ih =>
    intro j hj
    rw [List.mem_cons] at hj
    cases hj with
    | inl hji =>
      subst hji
      exact mem_idsOf_addMany_mono t _ j (mem_idsOf_addIfAbsent_self s j)
    | inr hjt => exact ih _ j hjt

lemma addMany_of_all_mem (ids : List Nat) (s : SelState)
    (h : ∀ i ∈ ids, i ∈ idsOf s.features) : addMany ids s = s := by
  induction ids with
  | nil => rfl
  | cons i t ih =>
    show addMany t (addIfAbsent s i) = s
    rw [addIfAbsent_of_mem s i (h i (List.mem_cons_self i t))]
    exact ih fun j hj => h j (List.mem_cons_of_mem i hj)

/-- C4: selectPathGroup is idempotent — a second application with the same
group reference finds every resolved id already present, adds nothing,
re-toggles nothing, and leaves every feature (including its coordinates)
and every visual selected flag exactly as the first application left
them. -/
theorem C4_selectPathGroup_idempotent (gp : GroupedPaths) (key : String)
    (s : SelState) :
    selectPathGroupState gp key (selectPathGroupState gp key s) =
      selectPathGroupState gp key s := by
  by_cases hk : key = ""
  · simp [selectPathGroupState, hk]
  · rw [selectPathGroupState, if_neg hk, selectPathGroupState, if_neg hk]
    exact addMany_of_all_mem _ _ (mem_idsOf_addMany (resolveIds gp key) s)

/-- State owned by the hover/visual-sync component: the hoveredFeatureId
side channel, the map surface's per-segment visual hover flag store, the
canvas cursor style, and the remembered previous cursor style. -/
structure HoverState where
  hoveredFeatureId : Option Nat
  hoverFlag : Nat → Bool
  cursor : String
  prevCursor : String

/-- Pointer events on the cycleways layer: a mousemove carrying the event
feature list (the handler uses the first feature's id and ignores empty
lists) and a mouseleave. -/
inductive PointerEvent where
  | mousemove (featureIds : List Nat)
  | mouseleave

/-- The mousemove handler: with a nonempty feature list, clears the
previous hovered segment's hover flag (if any), then records and flags the
first feature of the event; the pre-hover cursor is remembered only when
the cursor is not already the pointer style. -/
def mousemoveStep (s : HoverState) (featureIds : List Nat) : HoverState :=
  match featureIds with
  | [] => s
  | f :: _ =>
    let flags1 := match s.hoveredFeatureId with
      | some a => setFlag s.hoverFlag a false
      | none => s.hoverFlag
    let flags2 := setFlag flags1 f true
    let prev := if s.cursor ≠ "pointer" then s.cursor else s.prevCursor
    { hoveredFeatureId := some f
    , hoverFlag := flags2
    , cursor := "pointer"
    , prevCursor := prev }

/-- The mouseleave handler: clears the hovered segment's flag (if any),
forgets the hovered id, and restores the remembered cursor style. -/
def mouseleaveStep (s : HoverState) : HoverState :=
  let flags := match s.hoveredFeatureId with
    | some a => setFlag s.hoverFlag a false
    | none => s.hoverFlag
  { hoveredFeatureId := none
  , hoverFlag := flags
  , cursor := s.prevCursor
  , prevCursor := s.prevCursor }

/-- Dispatch of one pointer event. -/
def hoverStep (s : HoverState) : PointerEvent → HoverState
  | .mousemove fs => mousemoveStep s fs
  | .mouseleave => mouseleaveStep s

/-- The initial hover state: nothing hovered, no hover flag set, default
cursor. -/
def emptyHover : HoverState :=
  { hoveredFeatureId := none, hoverFlag := fun _ => false
  , cursor := "", prevCursor := "" }

/-- The hover state after a sequence of pointer events from startup. -/
def runHover (evs : List PointerEvent) : HoverState :=
  evs.foldl hoverStep emptyHover

/-- The identifier of the last feature-entered event (mousemove with a
nonempty feature list) not yet followed by a mouseleave. -/
def lastEntered (evs : List PointerEvent) : Option Nat :=
  evs.foldl
    (fun acc e =>
      match e with
      | .mousemove [] => acc
      | .mousemove (f :: _) => some f
      | .mouseleave => none)
    none

/-- The hover invariant: the flag store marks exactly the hovered id. -/
def HoverInv (s : HoverState) : Prop :=
  ∀ i, s.hoverFlag i = true ↔ s.hoveredFeatureId = some i

lemma hover_clear_all_false (s : HoverState) (hs : HoverInv s) (i : Nat) :
    (match s.hoveredFeatureId with
      | some a => setFlag s.hoverFlag a false
      | none => s.hoverFlag) i = false := by
  cases ha : s.hoveredFeatureId with
  | none =>
    show s.hoverFlag i = false
    cases hb : s.hoverFlag i with
    | false => rfl
    | true =>
      have := (hs i).mp hb
      rw [ha] at this
      cases this
  | some a =>
    show setFlag s.hoverFlag a false i = false
    rw [setFlag_eq]
    by_cases hia : i = a
    · rw [if_pos hia]
    · rw [if_neg hia]
      cases hb : s.hoverFlag i with
      | false => rfl
      | true =>
        have := (hs i).mp hb
        rw [ha] at this
        exact absurd (Option.some.inj this).symm hia

lemma hoverInv_mousemove (s : HoverState) (fs : List Nat) (hs : HoverInv s) :
    HoverInv (mousemoveStep s fs) := by
  cases fs with
  | nil => exact hs
  | cons f rest =>
    intro i
    show setFlag
        (match s.hoveredFeatureId with
          | some a => setFlag s.hoverFlag a false
          | none => s.hoverFlag) f true i = true ↔ some f = some i
    rw [setFlag_eq]
    by_cases hif : i = f
    · simp [hif]
    · rw [if_neg hif, hover_clear_all_false s hs i]
      simp only [Option.some.injEq]
      constructor
      · intro hflag
        cases hflag
      · intro hfi
        exact absurd hfi.symm hif

lemma hoverInv_mouseleave (s : HoverState) (hs : HoverInv s) :
    HoverInv (mouseleaveStep s) := by
  intro i
  show (match s.hoveredFeatureId with
    | some a => setFlag s.hoverFlag a false
    | none => s.hoverFlag) i = true ↔ none = some i
  rw [hover_clear_all_false s hs i]
  constructor
  · intro hflag
    cases hflag
  · intro hfi
    cases hfi

lemma hover_run_spec (evs : List PointerEvent) :
    ∀ (s : HoverState) (acc : Option Nat), HoverInv s →
      s.hoveredFeatureId = acc →
      HoverInv (evs.foldl hoverStep s) ∧
        (evs.foldl hoverStep s).hoveredFeatureId =
          evs.foldl
            (fun acc e =>
              match e with
              | .mousemove [] => acc
              | .mousemove (f :: _) => some f
              | .mouseleave => none)
            acc := by
  induction evs with
  | nil => exact fun s acc hs hacc => ⟨hs, hacc⟩
  | cons e t ih =>
    intro s acc hs hacc
    cases e with
    | mousemove fs =>
      cases fs with
      | nil => exact ih s acc hs hacc
      | cons f rest =>
        exact ih _ (some f) (hoverInv_mousemove s (f :: rest) hs) rfl
    | mouseleave =>
      exact ih _ none (hoverInv_mouseleave s hs) rfl

/-- C5: after any sequence of mousemove and mouseleave events, the visual
hover flag is set for exactly the segments equal to the current
hoveredFeatureId (hence for at most one segment), and that id is the one
of the last feature-entered event not yet followed by a mouseleave. -/
theorem C5_hover_at_most_one_and_last_entered (evs : List PointerEvent) :
    (∀ i, (runHover evs).hoverFlag i = true ↔
        (runHover evs).hoveredFeatureId = some i) ∧
      (runHover evs).hoveredFeatureId = lastEntered evs := by
  have h := hover_run_spec evs emptyHover none (fun i => by simp [emptyHover]) rfl
  exact ⟨h.1, h.2⟩

/-- JS toFixed(1) applied to meters/1000, on exact integer input: the
number of tenths of a kilometre, rounded to nearest with ties upward. -/
def roundTenthsOfKm (m : Nat) : Nat := (10 * m + 500) / 1000

/-- The distance formatting of showRouteInfo: at 1000 m and above, the
kilometre value to one decimal via toFixed(1); below, the (already whole)
rounded metre count. -/
def formatDistance (distanceMeters : Nat) : String :=
  if distanceMeters ≥ 1000 then
    s!"{roundTenthsOfKm distanceMeters / 10}.{roundTenthsOfKm distanceMeters % 10} km"
  else s!"{distanceMeters} m"

/-- The time formatting of showRouteInfo: hours and rounded remaining
minutes at 3600 s and above, rounded minutes from 60 s, plain seconds
below; Math.round on an exact nonnegative rational is rounding to nearest
with ties upward, i.e. adding half the divisor before flooring. -/
def formatTime (travelTimeSeconds : Nat) : String :=
  if travelTimeSeconds ≥ 3600 then
    s!"{travelTimeSeconds / 3600}h {(travelTimeSeconds % 3600 + 30) / 60}m"
  else if travelTimeSeconds ≥ 60 then
    s!"{(travelTimeSeconds + 30) / 60} min"
  else s!"{travelTimeSeconds} sec"

/-- C7: the distance formatter renders values below 1000 as whole metres
and values from 1000 as kilometres to one decimal; the time formatter
renders values below 60 as seconds, below 3600 as rounded minutes, and
from 3600 as hours with rounded minutes; in particular 500 gives
"500 m", 1500 gives "1.5 km", 45 gives "45 sec", 125 gives "2 min" and
5400 gives "1h 30m". -/
theorem C7_distance_time_formatters (m t : Nat) :
    (formatDistance m =
      if m < 1000 then s!"{m} m"
      else s!"{(10 * m + 500) / 1000 / 10}.{(10 * m + 500) / 1000 % 10} km") ∧
    (formatTime t =
      if t < 60 then s!"{t} sec"
      else if t < 3600 then s!"{(t + 30) / 60} min"
      else s!"{t / 3600}h {(t % 3600 + 30) / 60}m") ∧
    formatDistance 500 = "500 m" ∧ formatDistance 1500 = "1.5 km" ∧
    formatTime 45 = "45 sec" ∧ formatTime 125 = "2 min" ∧
    formatTime 5400 = "1h 30m" := by
  refine ⟨?_, ?_, by decide, by decide, by decide, by decide, by decide⟩
  · by_cases hm : m < 1000
    · rw [if_pos hm, formatDistance, if_neg (Nat.not_le.mpr hm)]
    · rw [if_neg hm, formatDistance, if_pos (Nat.not_lt.mp hm)]
      rfl
  · by_cases h60 : t < 60
    · have h1 : ¬ t ≥ 3600 := fun hc => absurd (Nat.lt_of_lt_of_le (by norm_num) hc) (Nat.not_lt.mpr (Nat.le_of_lt h60))
      rw [if_pos h60, formatTime, if_neg h1, if_neg (Nat.not_le.mpr h60)]
    · by_cases h3600 : t < 3600
      · rw [if_neg h60, if_pos h3600, formatTime, if_neg (Nat.not_le.mpr h3600),
          if_pos (Nat.not_lt.mp h60)]
      · rw [if_neg h60, if_neg h3600, formatTime, if_pos (Nat.not_lt.mp h3600)]

/-- An opaque GeoJSON feature-collection payload: the request lifecycle
only stores it and forwards it to the map surface, never inspects it. -/
structure FeatureCollection where
  raw : Nat
deriving DecidableEq, Repr

/-- UI state touched by the route response path: the data of the route
source, the two metric text nodes, and whether the routeInfo panel carries
the hidden class. -/
structure RouteUI where
  routeData : FeatureCollection
  distText : String
  timeText : String
  panelHidden : Bool
deriving DecidableEq, Repr

/-- The two accepted success-response shapes: a body with a geojson field
plus distance_meters and travel_time_seconds, or a legacy bare feature
collection. -/
inductive RouteResponse where
  | withMetrics (geojson : FeatureCollection) (distanceMeters : Nat)
      (travelTimeSeconds : Nat)
  | legacy (body : FeatureCollection)

/-- showRouteInfo: writes the formatted distance and time and removes the
hidden class from the routeInfo panel. -/
def showRouteInfo (distanceMeters travelTimeSeconds : Nat) (u : RouteUI) : RouteUI :=
  { u with
    distText := formatDistance distanceMeters,
    timeText := formatTime travelTimeSeconds,
    panelHidden := false }

/-- The success branch of generateRoute: a body with a geojson field has
exactly that geometry set on the route source and its metrics shown; a
legacy body is set whole on the route source with no other effect. -/
def applyRouteResponse (data : RouteResponse) (u : RouteUI) : RouteUI :=
  match data with
  | .withMetrics g d t => showRouteInfo d t { u with routeData := g }
  | .legacy body => { u with routeData := body }

/-- C8: on a metrics-carrying body the route source receives exactly the
geojson field, the formatted distance and time are displayed, and the
panel is made visible; on a legacy body the whole body goes to the route
source, no metric text is written, and the panel's visibility keeps its
previous state. -/
theorem C8_response_branches (g : FeatureCollection) (d t : Nat)
    (body : FeatureCollection) (u : RouteUI) :
    applyRouteResponse (.withMetrics g d t) u =
        { routeData := g, distText := formatDistance d
        , timeText := formatTime t, panelHidden := false } ∧
      applyRouteResponse (.legacy body) u = { u with routeData := body } :=
  ⟨rfl, rfl⟩

/-- State around the generate button: the endpoint markers, the button's
disabled flag, pulsing class and label, the number of POST requests
dispatched so far, how many of them have not yet settled, and how many
validation alerts have been shown. -/
structure GenState where
  startP : Option Coords
  endP : Option Coords
  buttonDisabled : Bool
  buttonPulsing : Bool
  buttonLabel : String
  requestsSent : Nat
  inFlight : Nat
  alertsShown : Nat
deriving DecidableEq, Repr

/-- generateRoute: fetch dispatches the POST and returns at once; its
callbacks run only after the response settles, so the call just records
one more request issued and in flight. -/
def generateRouteSend (s : GenState) : GenState :=
  { s with requestsSent := s.requestsSent + 1, inFlight := s.inFlight + 1 }

/-- The generate-button onclick handler. With both endpoints set, the try
block disables the button, starts the pulsing animation, swaps the label
and calls generateRoute; the finally block then re-enables the button and
restores the label — synchronously, because generateRoute returns as soon
as the fetch is dispatched, not when it settles. With an endpoint missing,
the handler only shows the validation alert. -/
def genClickHandler (s : GenState) : GenState :=
  if s.startP.isSome && s.endP.isSome then
    let pending :=
      { s with
        buttonDisabled := true, buttonPulsing := true,
        buttonLabel := "Generating Route..." }
    let dispatched := generateRouteSend pending
    { dispatched with
      buttonDisabled := false, buttonPulsing := false,
      buttonLabel := "Generate Route" }
  else { s with alertsShown := s.alertsShown + 1 }

/-- A user activation of the generate trigger: a disabled button fires no
click event; otherwise the handler runs. -/
def activateGenerate (s : GenState) : GenState :=
  if s.buttonDisabled then s else genClickHandler s

/-- The idle state with both endpoints set, ready to generate. -/
def readyGenState : GenState :=
  { startP := some (0, 0), endP := some (1, 1), buttonDisabled := false
  , buttonPulsing := false, buttonLabel := "Generate Route"
  , requestsSent := 0, inFlight := 0, alertsShown := 0 }

/-- C2 is refuted by the code: after one activation the dispatched request
is still in flight yet the button is already re-enabled (the finally block
runs synchronously before the fetch settles), so a second activation
dispatches a second request — two requests in flight at once, where the
claim requires the second activation to be a no-op. -/
theorem C2_second_request_dispatched_while_pending :
    (activateGenerate readyGenState).inFlight = 1 ∧
      (activateGenerate readyGenState).buttonDisabled = false ∧
      (activateGenerate (activateGenerate readyGenState)).requestsSent = 2 ∧
      (activateGenerate (activateGenerate readyGenState)).inFlight = 2 :=
  ⟨rfl, rfl, rfl, rfl⟩

/-- C6: activating the generate trigger while the start or the end point
is unset shows the validation alert and changes nothing else — no request
is dispatched, the markers, button state and pending count are untouched,
so the request state remains idle. -/
theorem C6_missing_endpoint_alert_only (s : GenState)
    (h : s.startP = none ∨ s.endP = none) :
    genClickHandler s = { s with alertsShown := s.alertsShown + 1 } := by
  have hcond : (s.startP.isSome && s.endP.isSome) = false := by
    cases h with
    | inl h1 => simp [h1]
    | inr h2 => simp [h2]
  simp [genClickHandler, hcond]

/-- Witness for C6 at a concrete idle state with no start point. -/
theorem C6_missing_endpoint_alert_only_witness :
    genClickHandler
        { startP := none, endP := none, buttonDisabled := false
        , buttonPulsing := false, buttonLabel := "Generate Route"
        , requestsSent := 0, inFlight := 0, alertsShown := 0 } =
      { startP := none, endP := none, buttonDisabled := false
      , buttonPulsing := false, buttonLabel := "Generate Route"
      , requestsSent := 0, inFlight := 0, alertsShown := 1 } :=
  C6_missing_endpoint_alert_only _ (Or.inl rfl)

/-- C9: a reference whose hierarchy name or group name is absent from the
loaded catalog resolves to the empty list, and selectPathGroup leaves the
selection state (features array and visual flags) exactly as it was; no
error path exists. -/
theorem C9_unknown_reference_resolves_empty (gp : GroupedPaths) (key : String)
    (s : SelState)
    (h : (jsStartsWith key "hierarchy:" = true ∧
          gp.hierarchy.lookup (jsDrop key 10) = none) ∨
         (jsStartsWith key "hierarchy:" = false ∧
          jsStartsWith key "path:" = true ∧
          gp.paths.lookup (jsDrop key 5) = none)) :
    resolveIds gp key = [] ∧ selectPathGroupState gp key s = s := by
  have hres : resolveIds gp key = [] := by
    cases h with
    | inl h1 => simp [resolveIds, h1.1, h1.2]
    | inr h2 => simp [resolveIds, h2.1, h2.2.1, extractIdsFromPath, h2.2.2]
  refine ⟨hres, ?_⟩
  by_cases hk : key = ""
  · simp [selectPathGroupState, hk]
  · rw [selectPathGroupState, if_neg hk, hres]
    rfl

/-- Witness for C9 at a concrete catalog and an unknown hierarchy name. -/
theorem C9_unknown_reference_resolves_empty_witness :
    resolveIds sharedMemberCatalog "hierarchy:zzz" = [] ∧
      selectPathGroupState sharedMemberCatalog "hierarchy:zzz" emptySel =
        emptySel :=
  C9_unknown_reference_resolves_empty sharedMemberCatalog "hierarchy:zzz"
    emptySel (Or.inl ⟨by decide, by decide⟩)
